import Mathlib

/-!
Verification development for the VoltDB `TableTupleFilter`
(`src/ee/storage/tabletuplefilter.h`).

The filter is a flat one-byte-marker array over the tuple slots of a table
whose storage is a list of fixed-size memory blocks.  A tuple's physical
address and its slot index are related by

  slot = (address - blockBase) / tupleLength + blockOffset,
  blockOffset = blockNumber * tuplesPerBlock.

Machine `uint64_t` values are embedded as `Nat`; the one place where
unsigned wrap-around is semantically relevant (the iterator's first
increment from the `INVALID_INDEX` sentinel) is made explicit with `% MOD`
where `MOD = 2 ^ 64`.  Fallible operations (C++ `assert` failures,
out-of-bounds accesses, unknown-block lookups) are embedded as `Option`
results, `none` meaning a fail-fast contract violation.

`TableTupleFilter::init`, `TableTupleFilter::findBlockIndex`, the default
constructor and the value of `INVALID_INDEX` are declared in the header but
defined in a translation unit that is not part of the sources at hand;
those are modelled from the specification and are marked as such in their
doc comments.
-/

/-- Modulus of `uint64_t` arithmetic. -/
def MOD : Nat := 2 ^ 64

/-- Modelled from the spec: the `INVALID_INDEX` sentinel is declared in the
header but its value is assigned in the missing translation unit; the spec
identifies it as the maximum 64-bit unsigned value. -/
def INVALID_INDEX : Nat := 2 ^ 64 - 1

/-- Constant `TableTupleFilter::INACTIVE_TUPLE = -1` (markers are C++ `char`,
embedded as `Int`). -/
def INACTIVE_TUPLE : Int := -1

/-- Constant `TableTupleFilter::ACTIVE_TUPLE = 0`. -/
def ACTIVE_TUPLE : Int := 0

/-- Embeds `uint64_t` subtraction `a - b` (two's complement wrap-around). -/
def u64sub (a b : Nat) : Nat := (a + (MOD - b % MOD)) % MOD

/-- State of a `TableTupleFilter`: the marker array `m_tuples`, the
enumerated block base addresses `m_blocks`, the block-address to
block-offset map `m_blockIndexes` (the `boost::unordered_map` is embedded
as an association list with unique keys), the fixed geometry
`m_tuplesPerBlock` / `m_tupleLength`, the single-entry last-resolved-block
cache `m_prevBlockAddress` / `m_prevBlockIndex`, and the bound
`m_lastActiveTupleIndex`. -/
structure TableTupleFilter where
  m_tuples : List Int
  m_blocks : List Nat
  m_blockIndexes : List (Nat × Nat)
  m_tuplesPerBlock : Nat
  m_tupleLength : Nat
  m_prevBlockAddress : Nat
  m_prevBlockIndex : Nat
  m_lastActiveTupleIndex : Nat
deriving DecidableEq, Repr

/-- Embeds `TableTupleFilter::empty`: true iff `m_lastActiveTupleIndex` is the
invalid sentinel. -/
def TableTupleFilter.empty (st : TableTupleFilter) : Bool :=
  st.m_lastActiveTupleIndex == INVALID_INDEX

/-- Embeds `TableTupleFilter::getTupleValue`: returns the marker stored at a slot
index; the C++ `assert(tupleIdx < m_tuples.size())` is embedded as `none`
out of range. -/
def TableTupleFilter.getTupleValue (st : TableTupleFilter) (tupleIdx : Nat) : Option Int :=
  st.m_tuples[tupleIdx]?

/-- Embeds `TableTupleFilter::getTupleAddress`: recovers an address from a slot
index as `m_blocks[tupleIdx / m_tuplesPerBlock] + (tupleIdx - blockIdx) *
m_tupleLength`, exactly as the source computes it (note: the source
subtracts the block index, not the block offset).  The two C++ asserts are
embedded as `none`. -/
def TableTupleFilter.getTupleAddress (st : TableTupleFilter) (tupleIdx : Nat) : Option Nat :=
  if tupleIdx < st.m_tuples.length then
    let blockIdx := tupleIdx / st.m_tuplesPerBlock
    match st.m_blocks[blockIdx]? with
    | some blockAddress => some (blockAddress + (tupleIdx - blockIdx) * st.m_tupleLength)
    | none => none
  else none

/-- Modelled from the spec: `TableTupleFilter::findBlockIndex` is declared
in the header but defined in the missing translation unit.  Per the spec
(section 4.1, address translation), it first checks the single-entry
cache: if the address falls within the cached block's span
(`m_tuplesPerBlock * m_tupleLength` bytes from the cached base) the cached
block offset is reused; otherwise the owning block is looked up in the
block-address to block-offset map — failing fast on an address outside
every enumerated block — and the cache is refreshed.  Returns the owning
block's starting offset into the marker array together with the
(cache-)updated state. -/
def TableTupleFilter.findBlockIndex (st : TableTupleFilter) (tupleAddress : Nat) :
    Option (Nat × TableTupleFilter) :=
  let blockSize := st.m_tuplesPerBlock * st.m_tupleLength
  if st.m_prevBlockAddress ≤ tupleAddress ∧
      tupleAddress < st.m_prevBlockAddress + blockSize then
    some (st.m_prevBlockIndex, st)
  else
    match st.m_blockIndexes.find?
        (fun p => decide (p.1 ≤ tupleAddress ∧ tupleAddress < p.1 + blockSize)) with
    | some p => some (p.2, { st with m_prevBlockAddress := p.1, m_prevBlockIndex := p.2 })
    | none => none

/-- Embeds `TableTupleFilter::getTupleIndex`: translates a tuple address to its
slot index, `(tupleAddress - m_prevBlockAddress) / m_tupleLength +
blockIndex`, after `findBlockIndex` has resolved the owning block and
refreshed `m_prevBlockAddress`.  The `uint64_t` subtraction is `u64sub`;
the final quotient-plus-offset cannot wrap for slots of a real marker
array, so it is plain `Nat` addition. -/
def TableTupleFilter.getTupleIndex (st : TableTupleFilter) (tupleAddress : Nat) :
    Option (Nat × TableTupleFilter) :=
  match st.findBlockIndex tupleAddress with
  | some (blockIndex, st') =>
      some (u64sub tupleAddress st'.m_prevBlockAddress / st'.m_tupleLength + blockIndex, st')
  | none => none

/-- Embeds `TableTupleFilter::updateTuple`: resolves the tuple's slot index, then
asserts `tupleIdx <= m_lastActiveTupleIndex && m_lastActiveTupleIndex !=
INVALID_INDEX` and `m_tuples[tupleIdx] != INACTIVE_TUPLE` (both embedded
as the `if` guard, `none` on violation; an out-of-range slot reads the
`INACTIVE_TUPLE` default and is likewise rejected), overwrites the slot's
marker and returns the slot index. -/
def TableTupleFilter.updateTuple (st : TableTupleFilter) (tupleAddress : Nat) (marker : Int) :
    Option (Nat × TableTupleFilter) :=
  match st.getTupleIndex tupleAddress with
  | some (tupleIdx, st') =>
      if tupleIdx ≤ st'.m_lastActiveTupleIndex ∧ st'.m_lastActiveTupleIndex ≠ INVALID_INDEX ∧
          st'.m_tuples.getD tupleIdx INACTIVE_TUPLE ≠ INACTIVE_TUPLE then
        some (tupleIdx, { st' with m_tuples := st'.m_tuples.set tupleIdx marker })
      else none
  | none => none

/-- Embeds `TableTupleFilter::initActiveTuple`: marks the tuple's slot
`ACTIVE_TUPLE` — asserting it was previously `INACTIVE_TUPLE` — and
advances `m_lastActiveTupleIndex` if it is still `INVALID_INDEX` or below
the new slot. -/
def TableTupleFilter.initActiveTuple (st : TableTupleFilter) (tupleAddress : Nat) :
    Option TableTupleFilter :=
  match st.getTupleIndex tupleAddress with
  | some (tupleIdx, st') =>
      if st'.m_tuples.getD tupleIdx ACTIVE_TUPLE = INACTIVE_TUPLE then
        let st2 := { st' with m_tuples := st'.m_tuples.set tupleIdx ACTIVE_TUPLE }
        if st2.m_lastActiveTupleIndex = INVALID_INDEX ∨ st2.m_lastActiveTupleIndex < tupleIdx then
          some { st2 with m_lastActiveTupleIndex := tupleIdx }
        else some st2
      else none
  | none => none

/-- Modelled from the spec: `TableTupleFilter::init(Table*)` and the
private `init(blocks, tuplesPerBlock, tupleLength)` are declared in the
header but defined in the missing translation unit.  Per the spec
(section 4.1, Initialize): enumerate the table's blocks in a fixed order,
give block number `i` the starting offset `i * tuplesPerBlock`, size the
marker array to `blocks.length * tuplesPerBlock` entries all
`INACTIVE_TUPLE`, leave the cache and `m_lastActiveTupleIndex` at the
invalid sentinel, then record every currently active tuple (given here by
its address) with `initActiveTuple`. -/
def initFilter (blocks : List Nat) (tuplesPerBlock tupleLength : Nat)
    (activeAddresses : List Nat) : Option TableTupleFilter :=
  let st0 : TableTupleFilter :=
    { m_tuples := List.replicate (blocks.length * tuplesPerBlock) INACTIVE_TUPLE,
      m_blocks := blocks,
      m_blockIndexes := blocks.enum.map (fun p => (p.2, p.1 * tuplesPerBlock)),
      m_tuplesPerBlock := tuplesPerBlock,
      m_tupleLength := tupleLength,
      m_prevBlockAddress := INVALID_INDEX,
      m_prevBlockIndex := INVALID_INDEX,
      m_lastActiveTupleIndex := INVALID_INDEX }
  activeAddresses.foldlM (fun st a => st.initActiveTuple a) st0

/-- The scan loop of `TableTupleFilter_iter::increment`, after the initial
`++m_tupleIdx`: keep incrementing while the index is still within
`[0, last]` and the marker there differs from `MARKER`.  Written with
explicit fuel so that it is structurally recursive and computable by the
kernel; inside the loop the index only moves between `0` and `last + 1`,
where `uint64_t` increment never wraps, so the loop uses plain `Nat`
successor. -/
def skipToFuel (markers : List Int) (last : Nat) (M : Int) : Nat → Nat → Nat
  | 0, idx => idx
  | fuel + 1, idx =>
      if idx ≤ last ∧ markers.getD idx INACTIVE_TUPLE ≠ M then
        skipToFuel markers last M fuel (idx + 1)
      else idx

/-- The scan loop with the fuel instantiated so it can never run out:
starting from `idx`, at most `last + 2 - idx` steps happen before the
index exceeds `last`. -/
def skipTo (markers : List Int) (last : Nat) (M : Int) (idx : Nat) : Nat :=
  skipToFuel markers last M (last + 2 - idx) idx

/-- Embeds `TableTupleFilter_iter::increment`: `do { ++m_tupleIdx; } while
(m_tupleIdx <= lastActiveTupleIndex && getTupleValue(m_tupleIdx) !=
MARKER)`.  The first `++` is genuine `uint64_t` arithmetic (it wraps the
`INVALID_INDEX` start of a begin iterator around to 0), hence the explicit
`% MOD`; the remaining increments are the in-range `skipTo` loop. -/
def iterIncrement (markers : List Int) (last : Nat) (M : Int) (idx : Nat) : Nat :=
  skipTo markers last M ((idx + 1) % MOD)

/-- The begin-iterator constructor `TableTupleFilter_iter(TableTupleFilter*)`:
the position starts at `INVALID_INDEX` and, unless the filter is empty, is
advanced once by `increment`. -/
def TableTupleFilter.beginIter (st : TableTupleFilter) (M : Int) : Nat :=
  if st.empty then INVALID_INDEX
  else iterIncrement st.m_tuples st.m_lastActiveTupleIndex M INVALID_INDEX

/-- Embeds `TableTupleFilter::end`: the sentinel position
`m_lastActiveTupleIndex + 1`, or `INVALID_INDEX` for an empty filter. -/
def TableTupleFilter.endIter (st : TableTupleFilter) : Nat :=
  if st.m_lastActiveTupleIndex ≠ INVALID_INDEX then st.m_lastActiveTupleIndex + 1
  else INVALID_INDEX

/-- The iteration protocol `for (it = begin; it != end; ++it)`: collect the
dereferenced positions until the iterator equals the end sentinel, and
also return the final position.  Fuel-structural for computability; with
fuel at least `last + 2` the loop always reaches the sentinel. -/
def iterLoop (markers : List Int) (last : Nat) (M : Int) (endPos : Nat) :
    Nat → Nat → List Nat × Nat
  | 0, pos => ([], pos)
  | fuel + 1, pos =>
      if pos = endPos then ([], pos)
      else
        let r := iterLoop markers last M endPos fuel (iterIncrement markers last M pos)
        (pos :: r.1, r.2)

/-!  Concrete states used by the end-to-end scenario and by witnesses. -/

/-- The filter produced by initializing from a table with blocks at
addresses 1000 and 2000, 4 tuples per block, tuple length 16, and active
tuples at addresses 1000, 1016, 1048 (block 0, relative slots 0, 1, 3) and
2032 (block 1, relative slot 2). -/
def c3Init : TableTupleFilter :=
  { m_tuples := [0, 0, -1, 0, -1, -1, 0, -1],
    m_blocks := [1000, 2000],
    m_blockIndexes := [(1000, 0), (2000, 4)],
    m_tuplesPerBlock := 4,
    m_tupleLength := 16,
    m_prevBlockAddress := 2000,
    m_prevBlockIndex := 4,
    m_lastActiveTupleIndex := 6 }

/-- State `c3Init` after `updateTuple` stamped the tuple at address 1016
(slot 1) with code 5. -/
def c3Updated : TableTupleFilter :=
  { m_tuples := [0, 5, -1, 0, -1, -1, 0, -1],
    m_blocks := [1000, 2000],
    m_blockIndexes := [(1000, 0), (2000, 4)],
    m_tuplesPerBlock := 4,
    m_tupleLength := 16,
    m_prevBlockAddress := 1000,
    m_prevBlockIndex := 0,
    m_lastActiveTupleIndex := 6 }

/-- A small filter with one block at address 1000, 2 tuples per block,
tuple length 16, both slots active. -/
def stW : TableTupleFilter :=
  { m_tuples := [0, 0],
    m_blocks := [1000],
    m_blockIndexes := [(1000, 0)],
    m_tuplesPerBlock := 2,
    m_tupleLength := 16,
    m_prevBlockAddress := 1000,
    m_prevBlockIndex := 0,
    m_lastActiveTupleIndex := 1 }

/-- State `stW` after its slot 1 has been stamped with code 7. -/
def stWUpdated : TableTupleFilter :=
  { m_tuples := [0, 7],
    m_blocks := [1000],
    m_blockIndexes := [(1000, 0)],
    m_tuplesPerBlock := 2,
    m_tupleLength := 16,
    m_prevBlockAddress := 1000,
    m_prevBlockIndex := 0,
    m_lastActiveTupleIndex := 1 }

/-- State `stW` after its slot 1 has been stamped with the inactive code. -/
def stWInactivated : TableTupleFilter :=
  { m_tuples := [0, -1],
    m_blocks := [1000],
    m_blockIndexes := [(1000, 0)],
    m_tuplesPerBlock := 2,
    m_tupleLength := 16,
    m_prevBlockAddress := 1000,
    m_prevBlockIndex := 0,
    m_lastActiveTupleIndex := 1 }

/-- A filter with one block of three slots, markers `[0, -1, 0]`, last
active slot 2. -/
def c2W : TableTupleFilter :=
  { m_tuples := [0, -1, 0],
    m_blocks := [1000],
    m_blockIndexes := [(1000, 0)],
    m_tuplesPerBlock := 3,
    m_tupleLength := 16,
    m_prevBlockAddress := 1000,
    m_prevBlockIndex := 0,
    m_lastActiveTupleIndex := 2 }

/-- An empty filter: no tuple was active at initialization, so
`m_lastActiveTupleIndex` is still the invalid sentinel. -/
def stE : TableTupleFilter :=
  { m_tuples := [-1, -1],
    m_blocks := [1000],
    m_blockIndexes := [(1000, 0)],
    m_tuplesPerBlock := 2,
    m_tupleLength := 16,
    m_prevBlockAddress := INVALID_INDEX,
    m_prevBlockIndex := INVALID_INDEX,
    m_lastActiveTupleIndex := INVALID_INDEX }

/-- A two-block filter whose last-resolved-block cache currently points at
block 0; queried below with an address in block 1. -/
def stC8 : TableTupleFilter :=
  { m_tuples := [-1, -1, -1, -1, -1, -1, -1, -1],
    m_blocks := [1000, 2000],
    m_blockIndexes := [(1000, 0), (2000, 4)],
    m_tuplesPerBlock := 4,
    m_tupleLength := 16,
    m_prevBlockAddress := 1000,
    m_prevBlockIndex := 0,
    m_lastActiveTupleIndex := INVALID_INDEX }

/-- Claim C1 (code bug): `getTupleAddress` does not return an address in
the owning block of the active tuple at slot 6.  In `c3Init` (2 blocks, 4
tuples per block, tuple length 16) the tuple at address 2032 lies in block
1's span `[2000, 2064)` and resolves to slot 6, but
`getTupleAddress 6 = 2000 + (6 - 6 / 4) * 16 = 2080`, which is outside
that span: the source subtracts the block index where its own documented
formula requires the block offset `blockIdx * tuplesPerBlock`. -/
theorem getTupleAddress_slot6_escapes_block :
    (c3Init.getTupleIndex 2032).map (fun r => r.1) = some 6 ∧
    c3Init.getTupleAddress 6 = some 2080 ∧
    (2000 ≤ 2032 ∧ 2032 < 2000 + 4 * 16) ∧
    ¬(2000 ≤ 2080 ∧ 2080 < 2000 + 4 * 16) := by decide

/-- Claim C3: end-to-end scenario.  Initializing from 2 blocks, 4 tuples
per block, tuple length 16, with active tuples at block-relative slots
0, 1, 3 of block 0 and slot 2 of block 1 gives `m_lastActiveTupleIndex = 6`
and active-marker iteration `[0, 1, 3, 6]` ending at the sentinel 7;
updating the tuple at slot 1 with code 5 makes marker-5 iteration yield
exactly `[1]` and active-marker iteration `[0, 3, 6]`. -/
theorem init_update_iterate_scenario :
    initFilter [1000, 2000] 4 16 [1000, 1016, 1048, 2032] = some c3Init ∧
    c3Init.m_lastActiveTupleIndex = 6 ∧
    iterLoop c3Init.m_tuples c3Init.m_lastActiveTupleIndex ACTIVE_TUPLE c3Init.endIter 8
      (c3Init.beginIter ACTIVE_TUPLE) = ([0, 1, 3, 6], 7) ∧
    c3Init.updateTuple 1016 5 = some (1, c3Updated) ∧
    iterLoop c3Updated.m_tuples c3Updated.m_lastActiveTupleIndex 5 c3Updated.endIter 8
      (c3Updated.beginIter 5) = ([1], 7) ∧
    iterLoop c3Updated.m_tuples c3Updated.m_lastActiveTupleIndex ACTIVE_TUPLE c3Updated.endIter 8
      (c3Updated.beginIter ACTIVE_TUPLE) = ([0, 3, 6], 7) := by decide

/-- Claim C7: for an empty filter and any marker, the begin iterator
equals the end sentinel and the iteration yields zero elements, whatever
fuel the protocol loop is given. -/
theorem empty_filter_iteration_empty (st : TableTupleFilter) (M : Int) (fuel : Nat)
    (he : st.empty = true) :
    st.beginIter M = st.endIter ∧
    iterLoop st.m_tuples st.m_lastActiveTupleIndex M st.endIter fuel (st.beginIter M) =
      ([], st.beginIter M) := by
  have hlast : st.m_lastActiveTupleIndex = INVALID_INDEX := by
    simpa [TableTupleFilter.empty] using he
  have hb : st.beginIter M = INVALID_INDEX := by
    simp [TableTupleFilter.beginIter, he]
  have hend : st.endIter = INVALID_INDEX := by
    simp [TableTupleFilter.endIter, hlast]
  refine ⟨by rw [hb, hend], ?_⟩
  cases fuel with
  | zero => simp [iterLoop]
  | succ f => simp [iterLoop, hb, hend]

/-- Claim C7 witness: the concrete empty filter `stE` with marker 5 and
fuel 3. -/
theorem empty_filter_iteration_empty_witness :
    stE.empty = true ∧
    (stE.beginIter 5 = stE.endIter ∧
      iterLoop stE.m_tuples stE.m_lastActiveTupleIndex 5 stE.endIter 3 (stE.beginIter 5) =
        ([], stE.beginIter 5)) :=
  ⟨by decide, empty_filter_iteration_empty stE 5 3 (by decide)⟩

/-- Behaviour of the bounded scan loop, by induction on fuel: with enough
fuel the result is at least the start, at most `last + 1`, no index
strictly between start and result carries the target marker, and the
result carries it whenever it is still within the bound. -/
lemma skipToFuel_spec (markers : List Int) (last : Nat) (M : Int) :
    ∀ fuel idx, idx ≤ last + 1 → last + 2 ≤ idx + fuel →
      idx ≤ skipToFuel markers last M fuel idx ∧
      skipToFuel markers last M fuel idx ≤ last + 1 ∧
      (∀ k, idx ≤ k → k < skipToFuel markers last M fuel idx →
        markers.getD k INACTIVE_TUPLE ≠ M) ∧
      (skipToFuel markers last M fuel idx ≤ last →
        markers.getD (skipToFuel markers last M fuel idx) INACTIVE_TUPLE = M) := by
  intro fuel
  induction fuel with
  | zero => intro idx h1 h2; omega
  | succ f ih =>
    intro idx h1 h2
    by_cases h : idx ≤ last ∧ markers.getD idx INACTIVE_TUPLE ≠ M
    · simp only [skipToFuel, if_pos h]
      obtain ⟨ih1, ih2, ih3, ih4⟩ := ih (idx + 1) (by omega) (by omega)
      refine ⟨by omega, ih2, ?_, ih4⟩
      intro k hk1 hk2
      rcases Nat.eq_or_lt_of_le hk1 with rfl | hlt
      · exact h.2
      · exact ih3 k hlt hk2
    · simp only [skipToFuel, if_neg h]
      refine ⟨Nat.le_refl _, h1, by omega, ?_⟩
      intro hle
      rcases Decidable.em (markers.getD idx INACTIVE_TUPLE = M) with he | hne
      · exact he
      · exact absurd ⟨hle, hne⟩ h

/-- Lemma: `skipTo` always carries enough fuel: specification of the scan loop. -/
lemma skipTo_spec (markers : List Int) (last : Nat) (M : Int) (idx : Nat)
    (h1 : idx ≤ last + 1) :
    idx ≤ skipTo markers last M idx ∧
    skipTo markers last M idx ≤ last + 1 ∧
    (∀ k, idx ≤ k → k < skipTo markers last M idx →
      markers.getD k INACTIVE_TUPLE ≠ M) ∧
    (skipTo markers last M idx ≤ last →
      markers.getD (skipTo markers last M idx) INACTIVE_TUPLE = M) := by
  have h := skipToFuel_spec markers last M (last + 2 - idx) idx h1 (by omega)
  simpa [skipTo] using h

/-- Two runs of `List.range'` filter to the same list when the gap between
their starts contains no element satisfying the predicate and they end at
the same index. -/
lemma filter_range'_shift (p : Nat → Bool) :
    ∀ (n a b m : Nat), a ≤ b → a + n = b + m →
      (∀ k, a ≤ k → k < b → p k = false) →
      (List.range' a n).filter p = (List.range' b m).filter p := by
  intro n
  induction n with
  | zero =>
    intro a b m hab heq hno
    have hb : a = b := by omega
    subst hb
    have hm : m = 0 := by omega
    subst hm
    rfl
  | succ n ih =>
    intro a b m hab heq hno
    rcases Nat.eq_or_lt_of_le hab with rfl | hlt
    · have hm : m = n + 1 := by omega
      subst hm
      rfl
    · have hpa : p a = false := hno a (Nat.le_refl a) hlt
      rw [List.range'_succ, List.filter_cons_of_neg (by simp [hpa])]
      exact ih (a + 1) b m (by omega) (by omega) (fun k hk1 hk2 => hno k (by omega) hk2)

/-- The iteration protocol, started at a valid position (a match or the
sentinel), yields exactly the matching indices from that position up to
`last` and halts at the sentinel `last + 1`. -/
lemma iterLoop_spec (markers : List Int) (last : Nat) (M : Int) (hmod : last + 1 < MOD) :
    ∀ fuel pos, last + 2 ≤ pos + fuel → pos ≤ last + 1 →
      (pos ≤ last → markers.getD pos INACTIVE_TUPLE = M) →
      iterLoop markers last M (last + 1) fuel pos =
        ((List.range' pos (last + 1 - pos)).filter
          (fun k => decide (markers.getD k INACTIVE_TUPLE = M)), last + 1) := by
  intro fuel
  induction fuel with
  | zero => intro pos h1 h2 h3; omega
  | succ f ih =>
    intro pos h1 h2 h3
    by_cases hp : pos = last + 1
    · subst hp
      simp [iterLoop]
    · have hpos : pos ≤ last := by omega
      have hmatch := h3 hpos
      have hinc : iterIncrement markers last M pos = skipTo markers last M (pos + 1) := by
        simp [iterIncrement, Nat.mod_eq_of_lt (show pos + 1 < MOD by omega)]
      obtain ⟨s1, s2, s3, s4⟩ := skipTo_spec markers last M (pos + 1) (by omega)
      have hrec := ih (skipTo markers last M (pos + 1)) (by omega) s2 s4
      simp only [iterLoop, if_neg hp, hinc, hrec]
      simp only [Prod.mk.injEq]
      refine ⟨?_, trivial⟩
      symm
      have hsplit : last + 1 - pos = (last - pos) + 1 := by omega
      rw [hsplit, List.range'_succ, List.filter_cons_of_pos (by simpa using hmatch)]
      refine congrArg (pos :: ·) ?_
      exact filter_range'_shift _ (last - pos) (pos + 1) (skipTo markers last M (pos + 1))
        (last + 1 - skipTo markers last M (pos + 1)) s1 (by omega)
        (fun k hk1 hk2 => by simpa using s3 k hk1 hk2)

/-- Claim C2: for an initialized non-empty filter and any marker `M`,
walking a begin iterator by repeated increment until it equals the end
iterator visits exactly the slot indices in `[0, m_lastActiveTupleIndex]`
whose marker equals `M` — as the filter of the increasing range, hence in
strictly increasing order — and halts at the sentinel
`m_lastActiveTupleIndex + 1`, which is the end position. -/
theorem marker_iteration_visits_matches (st : TableTupleFilter) (M : Int) (fuel : Nat)
    (hu : st.m_lastActiveTupleIndex < MOD)
    (hne : st.empty = false)
    (_hlen : st.m_lastActiveTupleIndex < st.m_tuples.length)
    (hfuel : st.m_lastActiveTupleIndex + 2 ≤ fuel) :
    iterLoop st.m_tuples st.m_lastActiveTupleIndex M st.endIter fuel (st.beginIter M) =
      ((List.range (st.m_lastActiveTupleIndex + 1)).filter
        (fun k => decide (st.m_tuples.getD k INACTIVE_TUPLE = M)),
       st.m_lastActiveTupleIndex + 1) ∧
    st.endIter = st.m_lastActiveTupleIndex + 1 := by
  have hni : st.m_lastActiveTupleIndex ≠ INVALID_INDEX := by
    simpa [TableTupleFilter.empty] using hne
  have hend : st.endIter = st.m_lastActiveTupleIndex + 1 := by
    simp [TableTupleFilter.endIter, hni]
  have hiv : INVALID_INDEX = MOD - 1 := rfl
  have hmod : st.m_lastActiveTupleIndex + 1 < MOD := by omega
  have hmod0 : (INVALID_INDEX + 1) % MOD = 0 := by decide
  have hbeg : st.beginIter M = skipTo st.m_tuples st.m_lastActiveTupleIndex M 0 := by
    simp [TableTupleFilter.beginIter, hne, iterIncrement, hmod0]
  obtain ⟨b1, b2, b3, b4⟩ :=
    skipTo_spec st.m_tuples st.m_lastActiveTupleIndex M 0 (by omega)
  have hloop := iterLoop_spec st.m_tuples st.m_lastActiveTupleIndex M hmod fuel
    (skipTo st.m_tuples st.m_lastActiveTupleIndex M 0) (by omega) b2 b4
  refine ⟨?_, hend⟩
  rw [hend, hbeg, hloop]
  simp only [Prod.mk.injEq]
  refine ⟨?_, trivial⟩
  rw [List.range_eq_range']
  exact (filter_range'_shift _ (st.m_lastActiveTupleIndex + 1) 0
    (skipTo st.m_tuples st.m_lastActiveTupleIndex M 0)
    (st.m_lastActiveTupleIndex + 1 - skipTo st.m_tuples st.m_lastActiveTupleIndex M 0)
    (Nat.zero_le _) (by omega)
    (fun k hk1 hk2 => by simpa using b3 k (Nat.zero_le k) hk2)).symm

/-- Claim C2 witness: the concrete filter `c2W` (markers `[0, -1, 0]`,
last active slot 2) iterated with the active marker visits `[0, 2]` and
halts at the sentinel 3. -/
theorem marker_iteration_visits_matches_witness :
    (c2W.empty = false ∧ c2W.m_lastActiveTupleIndex < c2W.m_tuples.length ∧
      c2W.m_lastActiveTupleIndex + 2 ≤ 4) ∧
    iterLoop c2W.m_tuples c2W.m_lastActiveTupleIndex 0 c2W.endIter 4 (c2W.beginIter 0) =
      ([0, 2], 3) :=
  ⟨by decide, by
    have h := (marker_iteration_visits_matches c2W 0 4 (by decide) (by decide) (by decide)
      (by decide)).1
    exact h.trans (by decide)⟩

/-- Claim C9: for any initialized filter and marker, iteration from the
begin iterator reaches the end sentinel after finitely many increments
(fuel `m_lastActiveTupleIndex + 2` suffices) and every visited slot index
is bounded by `m_lastActiveTupleIndex`. -/
theorem iteration_terminates_bounded (st : TableTupleFilter) (M : Int) (fuel : Nat)
    (hu : st.m_lastActiveTupleIndex < MOD)
    (hfuel : st.m_lastActiveTupleIndex + 2 ≤ fuel) :
    (iterLoop st.m_tuples st.m_lastActiveTupleIndex M st.endIter fuel (st.beginIter M)).2 =
      st.endIter ∧
    ∀ i ∈ (iterLoop st.m_tuples st.m_lastActiveTupleIndex M st.endIter fuel
      (st.beginIter M)).1, i ≤ st.m_lastActiveTupleIndex := by
  cases he : st.empty with
  | true =>
    have hlast : st.m_lastActiveTupleIndex = INVALID_INDEX := by
      simpa [TableTupleFilter.empty] using he
    have hb : st.beginIter M = INVALID_INDEX := by
      simp [TableTupleFilter.beginIter, he]
    have hend : st.endIter = INVALID_INDEX := by
      simp [TableTupleFilter.endIter, hlast]
    cases fuel with
    | zero => rw [hlast] at hfuel; omega
    | succ f => simp [iterLoop, hb, hend]
  | false =>
    have hni : st.m_lastActiveTupleIndex ≠ INVALID_INDEX := by
      simpa [TableTupleFilter.empty] using he
    have hend : st.endIter = st.m_lastActiveTupleIndex + 1 := by
      simp [TableTupleFilter.endIter, hni]
    have hiv : INVALID_INDEX = MOD - 1 := rfl
    have hmod : st.m_lastActiveTupleIndex + 1 < MOD := by omega
    have hmod0 : (INVALID_INDEX + 1) % MOD = 0 := by decide
    have hbeg : st.beginIter M = skipTo st.m_tuples st.m_lastActiveTupleIndex M 0 := by
      simp [TableTupleFilter.beginIter, he, iterIncrement, hmod0]
    obtain ⟨b1, b2, b3, b4⟩ :=
      skipTo_spec st.m_tuples st.m_lastActiveTupleIndex M 0 (by omega)
    have hloop := iterLoop_spec st.m_tuples st.m_lastActiveTupleIndex M hmod fuel
      (skipTo st.m_tuples st.m_lastActiveTupleIndex M 0) (by omega) b2 b4
    rw [hend, hbeg, hloop]
    refine ⟨rfl, ?_⟩
    intro i hi
    have hi' := List.mem_range'_1.mp (List.mem_filter.mp hi).1
    omega

/-- Claim C9 witness: `c2W` iterated with marker 7 (no matches) reaches
the end sentinel with every visited index bounded by 2. -/
theorem iteration_terminates_bounded_witness :
    (c2W.m_lastActiveTupleIndex < MOD ∧ c2W.m_lastActiveTupleIndex + 2 ≤ 4) ∧
    ((iterLoop c2W.m_tuples c2W.m_lastActiveTupleIndex 7 c2W.endIter 4 (c2W.beginIter 7)).2 =
        c2W.endIter ∧
      ∀ i ∈ (iterLoop c2W.m_tuples c2W.m_lastActiveTupleIndex 7 c2W.endIter 4
        (c2W.beginIter 7)).1, i ≤ c2W.m_lastActiveTupleIndex) :=
  ⟨⟨by decide, by decide⟩, iteration_terminates_bounded c2W 7 4 (by decide) (by decide)⟩

/-- Claim C10: a begin iterator of a non-empty filter starts at the
`INVALID_INDEX` sentinel (the maximum 64-bit value), whose first
increment wraps around modulo `2 ^ 64` to 0, so the scan for the first
matching marker starts at slot 0. -/
theorem begin_wraps_to_zero (st : TableTupleFilter) (M : Int) (hne : st.empty = false) :
    (INVALID_INDEX + 1) % MOD = 0 ∧
    st.beginIter M = skipTo st.m_tuples st.m_lastActiveTupleIndex M 0 := by
  have hmod0 : (INVALID_INDEX + 1) % MOD = 0 := by decide
  exact ⟨hmod0, by simp [TableTupleFilter.beginIter, hne, iterIncrement, hmod0]⟩

/-- Claim C10 witness: the concrete non-empty filter `c2W`. -/
theorem begin_wraps_to_zero_witness :
    c2W.empty = false ∧
    ((INVALID_INDEX + 1) % MOD = 0 ∧
      c2W.beginIter 0 = skipTo c2W.m_tuples c2W.m_lastActiveTupleIndex 0 0) :=
  ⟨by decide, begin_wraps_to_zero c2W 0 (by decide)⟩

/-- A successful `findBlockIndex` only (possibly) changes the
last-resolved-block cache fields; everything else is framed. -/
lemma findBlockIndex_frame (st : TableTupleFilter) (a i : Nat) (st' : TableTupleFilter)
    (h : st.findBlockIndex a = some (i, st')) :
    st'.m_tuples = st.m_tuples ∧ st'.m_blocks = st.m_blocks ∧
    st'.m_blockIndexes = st.m_blockIndexes ∧ st'.m_tuplesPerBlock = st.m_tuplesPerBlock ∧
    st'.m_tupleLength = st.m_tupleLength ∧
    st'.m_lastActiveTupleIndex = st.m_lastActiveTupleIndex := by
  simp only [TableTupleFilter.findBlockIndex] at h
  split at h
  · simp only [Option.some.injEq, Prod.mk.injEq] at h
    obtain ⟨h1, h2⟩ := h
    subst h2
    exact ⟨rfl, rfl, rfl, rfl, rfl, rfl⟩
  · split at h
    · simp only [Option.some.injEq, Prod.mk.injEq] at h
      obtain ⟨h1, h2⟩ := h
      subst h2
      exact ⟨rfl, rfl, rfl, rfl, rfl, rfl⟩
    · exact absurd h (by simp)

/-- A successful `getTupleIndex` likewise frames everything but the
cache. -/
lemma getTupleIndex_frame (st : TableTupleFilter) (a idx : Nat) (st' : TableTupleFilter)
    (h : st.getTupleIndex a = some (idx, st')) :
    st'.m_tuples = st.m_tuples ∧ st'.m_blocks = st.m_blocks ∧
    st'.m_blockIndexes = st.m_blockIndexes ∧ st'.m_tuplesPerBlock = st.m_tuplesPerBlock ∧
    st'.m_tupleLength = st.m_tupleLength ∧
    st'.m_lastActiveTupleIndex = st.m_lastActiveTupleIndex := by
  unfold TableTupleFilter.getTupleIndex at h
  cases hf : st.findBlockIndex a with
  | none => rw [hf] at h; exact absurd h (by simp)
  | some p =>
    obtain ⟨bi, st₁⟩ := p
    rw [hf] at h
    simp only [Option.some.injEq, Prod.mk.injEq] at h
    obtain ⟨h1, h2⟩ := h
    subst h2
    exact findBlockIndex_frame st a bi st₁ hf

/-- Decomposition of a successful `updateTuple`: the resolved slot, the
guard that held, and the new state as a one-slot overwrite. -/
lemma updateTuple_some (st : TableTupleFilter) (a : Nat) (M : Int) (idx : Nat)
    (st' : TableTupleFilter) (h : st.updateTuple a M = some (idx, st')) :
    ∃ st₁, st.getTupleIndex a = some (idx, st₁) ∧
      st₁.m_tuples = st.m_tuples ∧ st₁.m_blocks = st.m_blocks ∧
      st₁.m_blockIndexes = st.m_blockIndexes ∧ st₁.m_tuplesPerBlock = st.m_tuplesPerBlock ∧
      st₁.m_tupleLength = st.m_tupleLength ∧
      st₁.m_lastActiveTupleIndex = st.m_lastActiveTupleIndex ∧
      (idx ≤ st.m_lastActiveTupleIndex ∧ st.m_lastActiveTupleIndex ≠ INVALID_INDEX ∧
        st.m_tuples.getD idx INACTIVE_TUPLE ≠ INACTIVE_TUPLE) ∧
      st' = { st₁ with m_tuples := st₁.m_tuples.set idx M } := by
  unfold TableTupleFilter.updateTuple at h
  cases hres : st.getTupleIndex a with
  | none => rw [hres] at h; exact absurd h (by simp)
  | some p =>
    obtain ⟨i, st₁⟩ := p
    rw [hres] at h
    dsimp only at h
    split at h
    · rename_i hg
      simp only [Option.some.injEq, Prod.mk.injEq] at h
      obtain ⟨h1, h2⟩ := h
      subst h1
      obtain ⟨f1, f2, f3, f4, f5, f6⟩ := getTupleIndex_frame st a i st₁ hres
      rw [f1, f6] at hg
      exact ⟨st₁, rfl, f1, f2, f3, f4, f5, f6, hg, h2.symm⟩
    · exact absurd h (by simp)

/-- A `getD` read that differs from the default is in range. -/
lemma getD_ne_default_lt (l : List Int) (i : Nat) (d : Int)
    (h : l.getD i d ≠ d) : i < l.length := by
  by_contra hn
  push_neg at hn
  exact h (by simp [List.getD_eq_getElem?_getD, List.getElem?_eq_none hn])

/-- Claim C6: a successful `updateTuple` overwrites exactly the resolved
slot's marker with the given code, returns that slot index (the result of
`getTupleIndex`), leaves every other slot's marker and the fields
`m_blocks`, `m_blockIndexes`, `m_tuplesPerBlock`, `m_tupleLength` and
`m_lastActiveTupleIndex` unchanged, and a subsequent `getTupleValue` at
that slot reads back the code. -/
theorem update_frame_effect (st : TableTupleFilter) (a : Nat) (M : Int) (idx : Nat)
    (st' : TableTupleFilter) (h : st.updateTuple a M = some (idx, st')) :
    st'.m_tuples = st.m_tuples.set idx M ∧
    (∀ j, j ≠ idx → st'.m_tuples.getD j INACTIVE_TUPLE = st.m_tuples.getD j INACTIVE_TUPLE) ∧
    st'.m_blocks = st.m_blocks ∧ st'.m_blockIndexes = st.m_blockIndexes ∧
    st'.m_tuplesPerBlock = st.m_tuplesPerBlock ∧ st'.m_tupleLength = st.m_tupleLength ∧
    st'.m_lastActiveTupleIndex = st.m_lastActiveTupleIndex ∧
    st'.getTupleValue idx = some M ∧
    (st.getTupleIndex a).map (fun r => r.1) = some idx := by
  obtain ⟨st₁, hres, f1, f2, f3, f4, f5, f6, hg, rfl⟩ := updateTuple_some st a M idx st' h
  have hlt : idx < st.m_tuples.length := getD_ne_default_lt _ _ _ hg.2.2
  have hset : ({ st₁ with m_tuples := st₁.m_tuples.set idx M }).m_tuples =
      st.m_tuples.set idx M := by
    dsimp only
    rw [f1]
  refine ⟨hset, ?_, f2, f3, f4, f5, f6, ?_, by rw [hres]; rfl⟩
  · intro j hj
    rw [List.getD_eq_getElem?_getD, List.getD_eq_getElem?_getD, hset,
      List.getElem?_set_ne (Ne.symm hj)]
  · show (st₁.m_tuples.set idx M)[idx]? = some M
    rw [f1, List.getElem?_set_self hlt]

/-- Claim C6 witness: `stW` updated at address 1016 (slot 1) with
code 7. -/
theorem update_frame_effect_witness :
    stW.updateTuple 1016 7 = some (1, stWUpdated) ∧
    (stWUpdated.m_tuples = stW.m_tuples.set 1 7 ∧
      (∀ j, j ≠ 1 →
        stWUpdated.m_tuples.getD j INACTIVE_TUPLE = stW.m_tuples.getD j INACTIVE_TUPLE) ∧
      stWUpdated.m_blocks = stW.m_blocks ∧ stWUpdated.m_blockIndexes = stW.m_blockIndexes ∧
      stWUpdated.m_tuplesPerBlock = stW.m_tuplesPerBlock ∧
      stWUpdated.m_tupleLength = stW.m_tupleLength ∧
      stWUpdated.m_lastActiveTupleIndex = stW.m_lastActiveTupleIndex ∧
      stWUpdated.getTupleValue 1 = some 7 ∧
      (stW.getTupleIndex 1016).map (fun r => r.1) = some 1) :=
  ⟨by decide, update_frame_effect stW 1016 7 1 stWUpdated (by decide)⟩

/-- Claim C5: `updateTuple` fails fast exactly when its precondition is
violated.  Once the slot index is resolved, the update returns `none`
whenever the resolved index exceeds `m_lastActiveTupleIndex` (including
the empty-filter sentinel case) or the slot's current marker is the
inactive code; under the precondition the failure branch is unreachable
and the overwrite happens. -/
theorem update_rejects_precondition_violation (st : TableTupleFilter) (a : Nat) (M : Int)
    (idx : Nat) (st₁ : TableTupleFilter)
    (hres : st.getTupleIndex a = some (idx, st₁)) :
    (¬(idx ≤ st₁.m_lastActiveTupleIndex ∧ st₁.m_lastActiveTupleIndex ≠ INVALID_INDEX ∧
        st₁.m_tuples.getD idx INACTIVE_TUPLE ≠ INACTIVE_TUPLE) →
      st.updateTuple a M = none) ∧
    ((idx ≤ st₁.m_lastActiveTupleIndex ∧ st₁.m_lastActiveTupleIndex ≠ INVALID_INDEX ∧
        st₁.m_tuples.getD idx INACTIVE_TUPLE ≠ INACTIVE_TUPLE) →
      st.updateTuple a M = some (idx, { st₁ with m_tuples := st₁.m_tuples.set idx M })) := by
  unfold TableTupleFilter.updateTuple
  rw [hres]
  dsimp only
  constructor
  · intro hn
    rw [if_neg hn]
  · intro hp
    rw [if_pos hp]

/-- Claim C5 witness: for `stW` (both slots active, last active slot 1)
the tuple at address 1016 resolves to slot 1, the precondition holds, and
the update succeeds; the rejection branch is unreachable there. -/
theorem update_rejects_precondition_violation_witness :
    stW.getTupleIndex 1016 = some (1, stW) ∧
    ((¬(1 ≤ stW.m_lastActiveTupleIndex ∧ stW.m_lastActiveTupleIndex ≠ INVALID_INDEX ∧
        stW.m_tuples.getD 1 INACTIVE_TUPLE ≠ INACTIVE_TUPLE) →
      stW.updateTuple 1016 7 = none) ∧
     ((1 ≤ stW.m_lastActiveTupleIndex ∧ stW.m_lastActiveTupleIndex ≠ INVALID_INDEX ∧
        stW.m_tuples.getD 1 INACTIVE_TUPLE ≠ INACTIVE_TUPLE) →
      stW.updateTuple 1016 7 = some (1, { stW with m_tuples := stW.m_tuples.set 1 7 }))) :=
  ⟨by decide, update_rejects_precondition_violation stW 1016 7 1 stW (by decide)⟩

/-- Claim C4, amended: for every code other than the inactive one, no
slot at or below `m_lastActiveTupleIndex` whose marker is non-inactive
becomes inactive through `updateTuple`.  (As originally stated — for
every one-byte code — the claim fails: the code never checks the
caller's marker against `INACTIVE_TUPLE`, so passing `-1` reverts the
slot to inactive.) -/
theorem active_slots_stay_non_inactive (st : TableTupleFilter) (a : Nat) (M : Int)
    (idx : Nat) (st' : TableTupleFilter) (hM : M ≠ INACTIVE_TUPLE)
    (h : st.updateTuple a M = some (idx, st')) :
    ∀ s, s ≤ st.m_lastActiveTupleIndex →
      st.m_tuples.getD s INACTIVE_TUPLE ≠ INACTIVE_TUPLE →
      st'.m_tuples.getD s INACTIVE_TUPLE ≠ INACTIVE_TUPLE := by
  obtain ⟨st₁, hres, f1, f2, f3, f4, f5, f6, hg, rfl⟩ := updateTuple_some st a M idx st' h
  intro s hs hnon
  by_cases hsi : s = idx
  · subst hsi
    have hlt : s < st.m_tuples.length := getD_ne_default_lt _ _ _ hnon
    have hval : ({ st₁ with m_tuples := st₁.m_tuples.set s M }).m_tuples.getD s
        INACTIVE_TUPLE = M := by
      dsimp only
      rw [List.getD_eq_getElem?_getD, f1, List.getElem?_set_self hlt]
      rfl
    rw [hval]
    exact hM
  · have hval : ({ st₁ with m_tuples := st₁.m_tuples.set idx M }).m_tuples.getD s
        INACTIVE_TUPLE = st.m_tuples.getD s INACTIVE_TUPLE := by
      dsimp only
      rw [List.getD_eq_getElem?_getD, List.getElem?_set_ne (Ne.symm hsi), f1,
        List.getD_eq_getElem?_getD]
    rw [hval]
    exact hnon

/-- Claim C4 counterexample: the claim as stated — preservation for every
one-byte code the caller passes — is false: passing the inactive code
`-1` itself reverts slot 1 of `stW` (marker 0, within the active bound)
to inactive. -/
theorem update_can_reinactivate_slot :
    ¬ (∀ (M : Int) (st' : TableTupleFilter),
        stW.updateTuple 1016 M = some (1, st') →
        ∀ s, s ≤ stW.m_lastActiveTupleIndex →
          stW.m_tuples.getD s INACTIVE_TUPLE ≠ INACTIVE_TUPLE →
          st'.m_tuples.getD s INACTIVE_TUPLE ≠ INACTIVE_TUPLE) := by
  intro hcl
  exact hcl (-1) stWInactivated (by decide) 1 (by decide) (by decide) (by decide)

/-- Claim C4 witness (for the amended claim): updating `stW` with the
non-inactive code 7 keeps every active slot non-inactive. -/
theorem active_slots_stay_non_inactive_witness :
    ((7 : Int) ≠ INACTIVE_TUPLE ∧ stW.updateTuple 1016 7 = some (1, stWUpdated)) ∧
    (∀ s, s ≤ stW.m_lastActiveTupleIndex →
      stW.m_tuples.getD s INACTIVE_TUPLE ≠ INACTIVE_TUPLE →
      stWUpdated.m_tuples.getD s INACTIVE_TUPLE ≠ INACTIVE_TUPLE) :=
  ⟨⟨by decide, by decide⟩,
    active_slots_stay_non_inactive stW 1016 7 1 stWUpdated (by decide) (by decide)⟩

/-- Wrapped `uint64_t` subtraction agrees with `Nat` subtraction when the
minuend is in range and at least the subtrahend. -/
lemma u64sub_eq (a b : Nat) (hba : b ≤ a) (ha : a < MOD) : u64sub a b = a - b := by
  have hb : b % MOD = b := Nat.mod_eq_of_lt (Nat.lt_of_le_of_lt hba ha)
  unfold u64sub
  rw [hb]
  have h1 : a + (MOD - b) = a - b + MOD := by omega
  rw [h1, Nat.add_mod_right]
  exact Nat.mod_eq_of_lt (by omega)

/-- With pairwise-disjoint block spans, an address determines its owning
map entry uniquely. -/
lemma span_unique (bi : List (Nat × Nat)) (bs addr : Nat) (p q : Nat × Nat)
    (hdisj : ∀ r ∈ bi, ∀ t ∈ bi, r ≠ t → r.1 + bs ≤ t.1 ∨ t.1 + bs ≤ r.1)
    (hp : p ∈ bi) (hq : q ∈ bi)
    (hp1 : p.1 ≤ addr) (hp2 : addr < p.1 + bs)
    (hq1 : q.1 ≤ addr) (hq2 : addr < q.1 + bs) : p = q := by
  by_contra hne
  rcases hdisj p hp q hq hne with hcase | hcase <;> omega

/-- Claim C8: for an address inside the enumerated block with base `base`
and offset `off`, `getTupleIndex` returns
`(addr - base) / m_tupleLength + off`, whatever the prior state of the
last-resolved-block cache, provided the cache is coherent (it either holds
an entry of the map or misses this address) and block spans are pairwise
disjoint. -/
theorem slot_translation_cache_independent (st : TableTupleFilter) (addr base off : Nat)
    (hdisj : ∀ r ∈ st.m_blockIndexes, ∀ t ∈ st.m_blockIndexes, r ≠ t →
      r.1 + st.m_tuplesPerBlock * st.m_tupleLength ≤ t.1 ∨
      t.1 + st.m_tuplesPerBlock * st.m_tupleLength ≤ r.1)
    (hmem : (base, off) ∈ st.m_blockIndexes)
    (hbase : base ≤ addr)
    (hspan : addr < base + st.m_tuplesPerBlock * st.m_tupleLength)
    (haddr : addr < MOD)
    (hcache : (st.m_prevBlockAddress, st.m_prevBlockIndex) ∈ st.m_blockIndexes ∨
      ¬(st.m_prevBlockAddress ≤ addr ∧
        addr < st.m_prevBlockAddress + st.m_tuplesPerBlock * st.m_tupleLength)) :
    (st.getTupleIndex addr).map (fun r => r.1) =
      some ((addr - base) / st.m_tupleLength + off) := by
  simp only [TableTupleFilter.getTupleIndex, TableTupleFilter.findBlockIndex]
  by_cases hc : st.m_prevBlockAddress ≤ addr ∧
      addr < st.m_prevBlockAddress + st.m_tuplesPerBlock * st.m_tupleLength
  · rw [if_pos hc]
    rcases hcache with hmemc | hnot
    · have hpq := span_unique st.m_blockIndexes (st.m_tuplesPerBlock * st.m_tupleLength)
        addr (st.m_prevBlockAddress, st.m_prevBlockIndex) (base, off)
        hdisj hmemc hmem hc.1 hc.2 hbase hspan
      injection hpq with h1 h2
      dsimp only
      rw [h1, h2, u64sub_eq addr base hbase haddr]
      rfl
    · exact absurd hc hnot
  · rw [if_neg hc]
    cases hf : st.m_blockIndexes.find? (fun p => decide (p.1 ≤ addr ∧
        addr < p.1 + st.m_tuplesPerBlock * st.m_tupleLength)) with
    | none =>
      have hnone := List.find?_eq_none.mp hf (base, off) hmem
      simp only [decide_eq_true_eq] at hnone
      exact absurd ⟨hbase, hspan⟩ hnone
    | some p =>
      have hpred := List.find?_some hf
      have hmemp := List.mem_of_find?_eq_some hf
      simp only [decide_eq_true_eq] at hpred
      have hpq := span_unique st.m_blockIndexes (st.m_tuplesPerBlock * st.m_tupleLength)
        addr p (base, off) hdisj hmemp hmem hpred.1 hpred.2 hbase hspan
      subst hpq
      dsimp only
      rw [u64sub_eq addr base hbase haddr]
      rfl

/-- Claim C8 witness: `stC8`, whose cache points at block 0, queried with
address 2032 in block 1, yields slot `(2032 - 2000) / 16 + 4 = 6`. -/
theorem slot_translation_cache_independent_witness :
    ((2000, 4) ∈ stC8.m_blockIndexes ∧
      (stC8.m_prevBlockAddress, stC8.m_prevBlockIndex) ∈ stC8.m_blockIndexes) ∧
    (stC8.getTupleIndex 2032).map (fun r => r.1) =
      some ((2032 - 2000) / stC8.m_tupleLength + 4) :=
  ⟨by decide,
    slot_translation_cache_independent stC8 2032 2000 4 (by decide) (by decide) (by decide)
      (by decide) (by decide) (Or.inl (by decide))⟩
